import Mathlib

/-!
# Verification of the docker-compose wrapper (`wrapper.go`)

Shallow embedding of `wrapper.go`:

* Go `string` is modelled by `String`, `[]string` by `List String`, and a
  nil slice by `[]` (the code never distinguishes nil from empty for
  `[]string`).
* `append(s, x...)` is list concatenation `s ++ x`.
* The pointer-receiver methods `WithProjectName`, `WithEnvFilePath` and
  `WithHost` mutate the receiver; they are embedded as functions from the
  invocation before the call to the invocation after it.
* The operating system is a parameter: the parent environment
  (`os.Environ()`), the path helper `programPath` (declared outside
  `wrapper.go`) and the effect of running the child process
  (`cmd.Output()` together with the text written to the `stderr` buffer).
-/

namespace Wrapper

/-! ## `strings.TrimSpace` -/

/-- Go `unicode.IsSpace`: the Latin-1 cases of the switch statement followed by
the remaining ranges of the `White_Space` table. -/
def isSpace (r : Char) : Bool :=
  let n := r.toNat
  if n ≤ 0xFF then
    n == 0x09 || n == 0x0A || n == 0x0B || n == 0x0C || n == 0x0D || n == 0x20
      || n == 0x85 || n == 0xA0
  else
    n == 0x1680 || (0x2000 ≤ n && n ≤ 0x200A) || n == 0x2028 || n == 0x2029
      || n == 0x202F || n == 0x205F || n == 0x3000

/-- Go `strings.TrimSpace`: the string with all leading and all trailing
white space (as defined by `unicode.IsSpace`) removed. -/
def TrimSpace (s : String) : String :=
  ⟨((s.data.dropWhile isSpace).reverse.dropWhile isSpace).reverse⟩

/-! ## `composeCommand` and its builders -/

/-- Go `type composeCommand struct { command []string; args []string }`. -/
structure composeCommand where
  command : List String
  args : List String
  deriving DecidableEq, Repr

/-- Go `newCommand`: the loop appends `"-f"` and then the trimmed path for
every element of `filePaths`, starting from the nil slice. -/
def newCommand (command : List String) (filePaths : List String) : composeCommand :=
  { args := filePaths.foldl (fun args path => (args ++ ["-f"]) ++ [TrimSpace path]) []
    command := command }

/-- Go `newUpCommand`. -/
def newUpCommand (filePaths : List String) : composeCommand :=
  newCommand ["up", "-d"] filePaths

/-- Go `newDownCommand`. -/
def newDownCommand (filePaths : List String) : composeCommand :=
  newCommand ["down", "--remove-orphans"] filePaths

/-- Go `(*composeCommand).WithProjectName`. -/
def composeCommand.WithProjectName (command : composeCommand) (projectName : String) :
    composeCommand :=
  { command with args := command.args ++ ["-p", projectName] }

/-- Go `(*composeCommand).WithEnvFilePath`. -/
def composeCommand.WithEnvFilePath (command : composeCommand) (envFilePath : String) :
    composeCommand :=
  { command with args := command.args ++ ["--env-file", envFilePath] }

/-- Go `(*composeCommand).WithHost`. -/
def composeCommand.WithHost (command : composeCommand) (host : String) : composeCommand :=
  { command with args := command.args ++ ["-H", host] }

/-- Go `(*composeCommand).ToArgs`. -/
def composeCommand.ToArgs (command : composeCommand) : List String :=
  command.args ++ command.command


/-! ## The executor -/

/-- Go `type ComposeWrapper struct { binaryPath string }`. -/
structure ComposeWrapper where
  binaryPath : String
  deriving DecidableEq, Repr

/-- Go `exec.Cmd`, restricted to what `Command` sets: `Path` and `Args` are the
two parameters of `exec.Command(name, arg...)`, `Dir` the working directory and
`Env` the explicit environment, where `none` is the nil slice (the child then
inherits the environment of the parent). -/
structure Cmd where
  Path : String
  Args : List String
  Dir : String
  Env : Option (List String)
  deriving DecidableEq, Repr

/-- Go `exec.Command(name, arg...)`: a `Cmd` with no directory and no explicit
environment. -/
def execCommand (name : String) (arg : List String) : Cmd :=
  { Path := name, Args := arg, Dir := "", Env := none }

/-- What a run of the child process leaves behind: the two results of
`cmd.Output()` (`none` is Go nil) and the text written to the `stderr`
buffer. -/
structure RunOutcome (ε : Type) where
  output : Option (List UInt8)
  err : Option ε
  stderr : String

/-- The surroundings of `Command`: `programPath` (a helper of the package that
is declared outside `wrapper.go`), `os.Environ()` and the run of a prepared
`Cmd`. -/
structure Runtime (ε : Type) where
  programPath : String → String → String
  Environ : List String
  Output : Cmd → RunOutcome ε

/-- The error value built by `errors.Wrap` of `github.com/pkg/errors`: the
wrapped cause annotated with a message. -/
structure withMessage (ε : Type) where
  cause : ε
  msg : String
  deriving DecidableEq, Repr

/-- Go `errors.Wrap(err, message)`: nil for a nil error, otherwise the
annotated error. -/
def Wrap {ε : Type} (err : Option ε) (message : String) : Option (withMessage ε) :=
  match err with
  | none => none
  | some e => some { cause := e, msg := message }

/-- Lines 46-56 of `Command`: the three conditional attachments, in the order
project name, env-file path, host. -/
def composeCommand.attachOptions (command : composeCommand)
    (host projectName envFilePath : String) : composeCommand :=
  let command := if projectName ≠ "" then command.WithProjectName projectName else command
  let command := if envFilePath ≠ "" then command.WithEnvFilePath envFilePath else command
  let command := if host ≠ "" then command.WithHost host else command
  command

/-- Lines 44-67 of `Command`: the `exec.Cmd` that is about to be run. -/
def ComposeWrapper.prepare {ε : Type} (wrapper : ComposeWrapper) (sys : Runtime ε)
    (command : composeCommand)
    (workingDir host projectName envFilePath configPath : String) : Cmd :=
  let program := sys.programPath wrapper.binaryPath "docker-compose"
  let command := command.attachOptions host projectName envFilePath
  let cmd := execCommand program command.ToArgs
  let cmd := { cmd with Dir := workingDir }
  if configPath ≠ "" then
    let env := sys.Environ
    { cmd with Env := some (env ++ ["DOCKER_CONFIG=" ++ configPath]) }
  else
    cmd

/-- Lines 69-74 of `Command`: the pair of results for an outcome of the run. -/
def finish {ε : Type} (out : RunOutcome ε) : Option (List UInt8) × Option (withMessage ε) :=
  match out.err with
  | some err => (none, Wrap (some err) out.stderr)
  | none => (out.output, none)

/-- Go `(*ComposeWrapper).Command`: prepare the `exec.Cmd`, run it, and map the
outcome to the pair of results. -/
def ComposeWrapper.Command {ε : Type} (wrapper : ComposeWrapper) (sys : Runtime ε)
    (command : composeCommand)
    (workingDir host projectName envFilePath configPath : String) :
    Option (List UInt8) × Option (withMessage ε) :=
  finish (sys.Output
    (wrapper.prepare sys command workingDir host projectName envFilePath configPath))

/-- Go `(*ComposeWrapper).Up`. -/
def ComposeWrapper.Up {ε : Type} (wrapper : ComposeWrapper) (sys : Runtime ε)
    (filePaths : List String)
    (projectDir host projectName envFilePath configPath : String) :
    Option (List UInt8) × Option (withMessage ε) :=
  wrapper.Command sys (newUpCommand filePaths) projectDir host projectName envFilePath
    configPath

/-- Go `(*ComposeWrapper).Down`. -/
def ComposeWrapper.Down {ε : Type} (wrapper : ComposeWrapper) (sys : Runtime ε)
    (filePaths : List String) (projectDir host projectName : String) :
    Option (List UInt8) × Option (withMessage ε) :=
  wrapper.Command sys (newDownCommand filePaths) projectDir host projectName "" ""

/-! ## Vocabulary of the statements -/

/-- The `-f` pairs of a list of file paths, as one flat list. -/
def filePairs (filePaths : List String) : List String :=
  filePaths.flatMap (fun path => ["-f", TrimSpace path])

/-- The flag pair `[flag, value]` that `Command` attaches for an optional
value: nothing for the empty string. -/
def optPair (flag value : String) : List String :=
  if value = "" then [] else [flag, value]

/-- One attachment call on an invocation. -/
inductive Attachment where
  | projectName (value : String)
  | envFilePath (value : String)
  | host (value : String)
  deriving DecidableEq, Repr

/-- The method call that an attachment stands for. -/
def composeCommand.attach (command : composeCommand) : Attachment → composeCommand
  | .projectName v => command.WithProjectName v
  | .envFilePath v => command.WithEnvFilePath v
  | .host v => command.WithHost v

/-- A finite sequence of attachment calls, first call first. -/
def composeCommand.attachAll (command : composeCommand) (calls : List Attachment) :
    composeCommand :=
  calls.foldl composeCommand.attach command

/-- The flag pair that an attachment call is expected to append. -/
def Attachment.pair : Attachment → List String
  | .projectName v => ["-p", v]
  | .envFilePath v => ["--env-file", v]
  | .host v => ["-H", v]

/-- The final order of the argument vector as the interface section of the
specification words it: the project, env-file and host pairs first, then the
`-f` pairs, then the base tokens. -/
def specOrderArgs (command filePaths : List String) (host projectName envFilePath : String) :
    List String :=
  optPair "-p" projectName ++ optPair "--env-file" envFilePath ++ optPair "-H" host
    ++ filePairs filePaths ++ command

/-- The flags that the builder can emit. -/
def modifierFlags : List String := ["-f", "-p", "--env-file", "-H"]

/-! ### Re-parsing an argument vector -/

/-- An argument vector without its two trailing base tokens. -/
def dropBase (argv : List String) : List String :=
  argv.take (argv.length - 2)

/-- A token list read as consecutive (flag, value) pairs. -/
def toPairs : List String → List (String × String)
  | flag :: value :: rest => (flag, value) :: toPairs rest
  | _ => []

/-- The values that stand under a given flag, in order. -/
def valuesUnder (flag : String) (pairs : List (String × String)) : List String :=
  (pairs.filter (fun fv => fv.1 == flag)).map (fun fv => fv.2)

/-- An optional string parameter of `Command`: the empty string is absent. -/
def optional (value : String) : Option String :=
  if value = "" then none else some value

/-- What re-parsing an argument vector yields. -/
structure Parsed where
  files : List String
  projectName : Option String
  envFilePath : Option String
  host : Option String
  deriving DecidableEq, Repr

/-- Re-parse a finalized argument vector: drop the two base tokens, read the
rest as flag pairs, collect the values under `-f` and take the value under
each of `-p`, `--env-file` and `-H` when there is one. -/
def parseArgs (argv : List String) : Parsed :=
  let pairs := toPairs (dropBase argv)
  { files := valuesUnder "-f" pairs
    projectName := (valuesUnder "-p" pairs).head?
    envFilePath := (valuesUnder "--env-file" pairs).head?
    host := (valuesUnder "-H" pairs).head? }

/-! ## Helper lemmas -/

theorem foldl_append_pairs (filePaths : List String) (acc : List String) :
    filePaths.foldl (fun args path => (args ++ ["-f"]) ++ [TrimSpace path]) acc
      = acc ++ filePairs filePaths := by
  induction filePaths generalizing acc with
  | nil => simp [filePairs]
  | cons p ps ih =>
    simp only [List.foldl_cons, ih, filePairs, List.flatMap_cons]
    simp

theorem newCommand_args (command filePaths : List String) :
    (newCommand command filePaths).args = filePairs filePaths := by
  simp only [newCommand, foldl_append_pairs, List.nil_append]

theorem filePairs_length (filePaths : List String) :
    (filePairs filePaths).length = 2 * filePaths.length := by
  induction filePaths with
  | nil => rfl
  | cons p ps ih =>
    simp only [filePairs, List.flatMap_cons, List.length_append, List.length_cons,
      List.length_nil] at ih ⊢
    omega

theorem attachOptions_args (command : composeCommand) (host projectName envFilePath : String) :
    (command.attachOptions host projectName envFilePath).args
      = command.args ++ optPair "-p" projectName ++ optPair "--env-file" envFilePath
          ++ optPair "-H" host := by
  unfold composeCommand.attachOptions optPair
  by_cases hp : projectName = "" <;> by_cases he : envFilePath = ""
    <;> by_cases hh : host = ""
    <;> simp [hp, he, hh, composeCommand.WithProjectName, composeCommand.WithEnvFilePath,
          composeCommand.WithHost]

theorem attachOptions_command (command : composeCommand)
    (host projectName envFilePath : String) :
    (command.attachOptions host projectName envFilePath).command = command.command := by
  unfold composeCommand.attachOptions
  by_cases hp : projectName = "" <;> by_cases he : envFilePath = ""
    <;> by_cases hh : host = ""
    <;> simp [hp, he, hh, composeCommand.WithProjectName, composeCommand.WithEnvFilePath,
          composeCommand.WithHost]

theorem attachOptions_ToArgs (command : composeCommand)
    (host projectName envFilePath : String) :
    (command.attachOptions host projectName envFilePath).ToArgs
      = command.args ++ optPair "-p" projectName ++ optPair "--env-file" envFilePath
          ++ optPair "-H" host ++ command.command := by
  rw [composeCommand.ToArgs, attachOptions_args, attachOptions_command]

theorem prepare_Args {ε : Type} (wrapper : ComposeWrapper) (sys : Runtime ε)
    (command : composeCommand)
    (workingDir host projectName envFilePath configPath : String) :
    (wrapper.prepare sys command workingDir host projectName envFilePath configPath).Args
      = (command.attachOptions host projectName envFilePath).ToArgs := by
  unfold ComposeWrapper.prepare
  by_cases hc : configPath = "" <;> simp [hc, execCommand]

theorem attachAll_args (command : composeCommand) (calls : List Attachment) :
    (command.attachAll calls).args = command.args ++ calls.flatMap Attachment.pair := by
  unfold composeCommand.attachAll
  induction calls generalizing command with
  | nil => simp
  | cons a as ih =>
    rw [List.foldl_cons, ih]
    cases a <;>
      simp [composeCommand.attach, composeCommand.WithProjectName,
        composeCommand.WithEnvFilePath, composeCommand.WithHost, Attachment.pair]

theorem attachAll_command (command : composeCommand) (calls : List Attachment) :
    (command.attachAll calls).command = command.command := by
  unfold composeCommand.attachAll
  induction calls generalizing command with
  | nil => rfl
  | cons a as ih =>
    rw [List.foldl_cons, ih]
    cases a <;> rfl

theorem attachAll_ToArgs (command filePaths : List String) (calls : List Attachment) :
    ((newCommand command filePaths).attachAll calls).ToArgs
      = (filePairs filePaths ++ calls.flatMap Attachment.pair) ++ command := by
  rw [composeCommand.ToArgs, attachAll_args, attachAll_command, newCommand_args]
  rfl

theorem flags_head_mem (filePaths : List String) (calls : List Attachment)
    (h : filePaths ≠ [] ∨ calls ≠ []) :
    ∃ flag rest, flag ∈ modifierFlags
      ∧ filePairs filePaths ++ calls.flatMap Attachment.pair = flag :: rest := by
  cases filePaths with
  | cons p ps =>
    exact ⟨"-f", _, by decide, rfl⟩
  | nil =>
    cases calls with
    | nil => simp at h
    | cons a as =>
      cases a with
      | projectName v => exact ⟨"-p", _, by decide, rfl⟩
      | envFilePath v => exact ⟨"--env-file", _, by decide, rfl⟩
      | host v => exact ⟨"-H", _, by decide, rfl⟩

theorem dropBase_append (flags command : List String) (h : command.length = 2) :
    dropBase (flags ++ command) = flags := by
  unfold dropBase
  rw [List.length_append, h, Nat.add_sub_cancel, List.take_left]

theorem toPairs_filePairs (filePaths rest : List String) :
    toPairs (filePairs filePaths ++ rest)
      = filePaths.map (fun path => ("-f", TrimSpace path)) ++ toPairs rest := by
  induction filePaths with
  | nil => rfl
  | cons p ps ih =>
    have hstep : filePairs (p :: ps) ++ rest
        = "-f" :: TrimSpace p :: (filePairs ps ++ rest) := rfl
    rw [hstep, toPairs, ih]
    rfl

theorem valuesUnder_append (flag : String) (xs ys : List (String × String)) :
    valuesUnder flag (xs ++ ys) = valuesUnder flag xs ++ valuesUnder flag ys := by
  simp [valuesUnder]

theorem valuesUnder_files (filePaths : List String) :
    valuesUnder "-f" (filePaths.map (fun path => ("-f", TrimSpace path)))
      = filePaths.map TrimSpace := by
  induction filePaths with
  | nil => rfl
  | cons p ps ih =>
    simp only [valuesUnder, List.map_cons, List.filter_cons, beq_self_eq_true, if_true,
      List.cons.injEq, true_and] at ih ⊢
    exact ih

theorem valuesUnder_files_other (flag : String) (hflag : ("-f" == flag) = false)
    (filePaths : List String) :
    valuesUnder flag (filePaths.map (fun path => ("-f", TrimSpace path))) = [] := by
  induction filePaths with
  | nil => rfl
  | cons p ps ih =>
    simp only [valuesUnder, List.map_cons, List.filter_cons, hflag, List.map_eq_nil_iff]
      at ih ⊢
    simpa using ih

theorem optional_injective (a b : String) (h : optional a = optional b) : a = b := by
  unfold optional at h
  by_cases ha : a = "" <;> by_cases hb : b = "" <;> simp_all

theorem parseArgs_attachOptions (command filePaths : List String)
    (host projectName envFilePath : String) (hlen : command.length = 2) :
    parseArgs ((newCommand command filePaths).attachOptions host projectName
        envFilePath).ToArgs
      = { files := filePaths.map TrimSpace
          projectName := optional projectName
          envFilePath := optional envFilePath
          host := optional host } := by
  have hargs : ((newCommand command filePaths).attachOptions host projectName
        envFilePath).ToArgs
      = (filePairs filePaths ++ (optPair "-p" projectName
          ++ optPair "--env-file" envFilePath ++ optPair "-H" host)) ++ command := by
    rw [attachOptions_ToArgs, newCommand_args]
    simp [newCommand]
  have hf := valuesUnder_files filePaths
  have hp := valuesUnder_files_other "-p" (by decide) filePaths
  have he := valuesUnder_files_other "--env-file" (by decide) filePaths
  have hh := valuesUnder_files_other "-H" (by decide) filePaths
  unfold parseArgs
  simp only [hargs, dropBase_append _ _ hlen, toPairs_filePairs, valuesUnder_append,
    hf, hp, he, hh, List.nil_append]
  unfold optPair optional
  by_cases h1 : projectName = "" <;> by_cases h2 : envFilePath = ""
    <;> by_cases h3 : host = ""
    <;> simp [h1, h2, h3, toPairs, valuesUnder]

/-! ## Claims -/

/-- C1: for every list of base tokens and every list of file paths, `newCommand`
returns an invocation whose args are the concatenation, in input order, of the
pair `["-f", TrimSpace path]` for each path (one pair per path, `2 * n` tokens,
none for the empty list), whose command field is the given base tokens; the
input with surrounding blanks of the test gives the trimmed pairs. -/
theorem C1_newCommand_args (command filePaths : List String) :
    (newCommand command filePaths).args
        = (filePaths.map (fun path => ["-f", TrimSpace path])).flatten
      ∧ (newCommand command filePaths).args.length = 2 * filePaths.length
      ∧ (newCommand command filePaths).command = command
      ∧ (newCommand command []).args = []
      ∧ (newCommand ["up", "-d"] [" docker-compose.yml", "docker-compose-override.yml "]).args
          = ["-f", "docker-compose.yml", "-f", "docker-compose-override.yml"] := by
  refine ⟨?_, ?_, rfl, rfl, ?_⟩
  · rw [newCommand_args, filePairs, List.flatMap]
  · rw [newCommand_args, filePairs_length]
  · decide

/-- C2: for every invocation built by `newCommand`, the argument vector that
`Command` hands to the external binary is the args of the invocation (the `-f`
pairs), then `["-p", projectName]` if the project name is non-empty, then
`["--env-file", envFilePath]` if the env-file path is non-empty, then
`["-H", host]` if the host is non-empty, then the base tokens; each attachment
appends its pair after the args already present and leaves the earlier args
and the base tokens as they are; one file, project `test1` and bring-up give
`-f docker-compose.yml -p test1 up -d`. -/
theorem C2_Command_args {ε : Type} (wrapper : ComposeWrapper) (sys : Runtime ε)
    (command filePaths : List String)
    (workingDir host projectName envFilePath configPath : String) (c : composeCommand)
    (v : String) :
    (wrapper.prepare sys (newCommand command filePaths) workingDir host projectName
        envFilePath configPath).Args
      = (newCommand command filePaths).args
          ++ (if projectName = "" then [] else ["-p", projectName])
          ++ (if envFilePath = "" then [] else ["--env-file", envFilePath])
          ++ (if host = "" then [] else ["-H", host])
          ++ command
    ∧ (newCommand command filePaths).args = filePairs filePaths
    ∧ ((c.WithProjectName v).args = c.args ++ ["-p", v]
        ∧ (c.WithProjectName v).command = c.command)
    ∧ ((c.WithEnvFilePath v).args = c.args ++ ["--env-file", v]
        ∧ (c.WithEnvFilePath v).command = c.command)
    ∧ ((c.WithHost v).args = c.args ++ ["-H", v] ∧ (c.WithHost v).command = c.command)
    ∧ (wrapper.prepare sys (newUpCommand ["docker-compose.yml"]) workingDir "" "test1" ""
        configPath).Args = ["-f", "docker-compose.yml", "-p", "test1", "up", "-d"] := by
  refine ⟨?_, newCommand_args _ _, ⟨rfl, rfl⟩, ⟨rfl, rfl⟩, ⟨rfl, rfl⟩, ?_⟩
  · rw [prepare_Args, attachOptions_ToArgs]
    rfl
  · rw [prepare_Args]
    decide

/-- C3 (as the specification words it, refuted): with one file and project
`test1`, the vector that `Up` passes on is `-f docker-compose.yml -p test1 up -d`,
which is not the vector with the project pair before the first `-f` pair; the
same holds for the arguments of the prepared `exec.Cmd`. -/
theorem C3_spec_order_refuted :
    ((newUpCommand ["docker-compose.yml"]).attachOptions "" "test1" "").ToArgs
        = ["-f", "docker-compose.yml", "-p", "test1", "up", "-d"]
      ∧ ((newUpCommand ["docker-compose.yml"]).attachOptions "" "test1" "").ToArgs
        ≠ specOrderArgs ["up", "-d"] ["docker-compose.yml"] "" "test1" ""
      ∧ specOrderArgs ["up", "-d"] ["docker-compose.yml"] "" "test1" ""
        = ["-p", "test1", "-f", "docker-compose.yml", "up", "-d"]
      ∧ (ComposeWrapper.prepare ⟨""⟩
          ({ programPath := fun _ name => name, Environ := [],
             Output := fun _ => ⟨none, none, ""⟩ } : Runtime Unit)
          (newUpCommand ["docker-compose.yml"]) "" "" "test1" "" "").Args
        ≠ specOrderArgs ["up", "-d"] ["docker-compose.yml"] "" "test1" "" := by
  decide

/-- C3 (amended): for every non-empty list of file paths, the vector that `Up`
(and `Command`, for any base tokens) passes to the external binary has the
order: the `-f` pairs in input order first, then the optional project pair,
then the optional env-file pair, then the optional host pair, then the base
tokens; its first token is `-f`, so no project, env-file or host pair comes
before the first `-f` pair. -/
theorem C3_f_pairs_first {ε : Type} (wrapper : ComposeWrapper) (sys : Runtime ε)
    (command filePaths : List String)
    (workingDir host projectName envFilePath configPath : String)
    (hne : filePaths ≠ []) :
    (wrapper.prepare sys (newUpCommand filePaths) workingDir host projectName envFilePath
        configPath).Args
      = filePairs filePaths ++ optPair "-p" projectName ++ optPair "--env-file" envFilePath
          ++ optPair "-H" host ++ ["up", "-d"]
    ∧ (wrapper.prepare sys (newCommand command filePaths) workingDir host projectName
        envFilePath configPath).Args
      = filePairs filePaths ++ optPair "-p" projectName ++ optPair "--env-file" envFilePath
          ++ optPair "-H" host ++ command
    ∧ (wrapper.prepare sys (newCommand command filePaths) workingDir host projectName
        envFilePath configPath).Args.take (2 * filePaths.length) = filePairs filePaths
    ∧ (wrapper.prepare sys (newCommand command filePaths) workingDir host projectName
        envFilePath configPath).Args.head? = some "-f" := by
  have hgen : ∀ base : List String,
      (wrapper.prepare sys (newCommand base filePaths) workingDir host projectName
        envFilePath configPath).Args
      = filePairs filePaths ++ optPair "-p" projectName ++ optPair "--env-file" envFilePath
          ++ optPair "-H" host ++ base := by
    intro base
    rw [prepare_Args, attachOptions_ToArgs, newCommand_args]
    rfl
  refine ⟨hgen _, hgen _, ?_, ?_⟩
  · rw [hgen, ← filePairs_length]
    simp only [List.append_assoc, List.take_left]
  · rw [hgen]
    cases filePaths with
    | nil => exact absurd rfl hne
    | cons p ps => simp [filePairs]

/-- C3 (amended), at one file with project, env-file and host all given. -/
theorem C3_f_pairs_first_witness :
    ["docker-compose.yml"] ≠ ([] : List String)
      ∧ (ComposeWrapper.prepare ⟨""⟩
          ({ programPath := fun _ name => name, Environ := [],
             Output := fun _ => ⟨none, none, ""⟩ } : Runtime Unit)
          (newCommand ["up", "-d"] ["docker-compose.yml"]) "" "h" "p" "e" "").Args.head?
        = some "-f" :=
  ⟨by decide,
    (C3_f_pairs_first ⟨""⟩ _ ["up", "-d"] ["docker-compose.yml"] "" "h" "p" "e" ""
      (by decide)).2.2.2⟩

/-- C4: for every invocation obtained from `newCommand` followed by any finite
sequence of `WithProjectName`, `WithEnvFilePath` and `WithHost` calls, `ToArgs`
returns all accumulated flag pairs in attachment order followed by the base
tokens: the vector ends with exactly the base tokens (`up -d` for bring-up),
the flag pairs fill the positions before them, and when any flag is present
the vector of a bring-up or tear-down starts with a flag, not with the base
tokens. -/
theorem C4_flags_before_base (command filePaths : List String) (calls : List Attachment) :
    ((newCommand command filePaths).attachAll calls).ToArgs
        = (filePairs filePaths ++ calls.flatMap Attachment.pair) ++ command
      ∧ command <:+ ((newCommand command filePaths).attachAll calls).ToArgs
      ∧ ((newCommand command filePaths).attachAll calls).ToArgs.drop
          (2 * filePaths.length + 2 * calls.length) = command
      ∧ ((newCommand command filePaths).attachAll calls).ToArgs.take
          (2 * filePaths.length + 2 * calls.length)
          = filePairs filePaths ++ calls.flatMap Attachment.pair
      ∧ ((newUpCommand filePaths).attachAll calls).ToArgs
          = (filePairs filePaths ++ calls.flatMap Attachment.pair) ++ ["up", "-d"]
      ∧ ((newDownCommand filePaths).attachAll calls).ToArgs
          = (filePairs filePaths ++ calls.flatMap Attachment.pair)
              ++ ["down", "--remove-orphans"]
      ∧ ((filePaths ≠ [] ∨ calls ≠ []) →
          (∃ flag, flag ∈ modifierFlags
              ∧ ((newCommand command filePaths).attachAll calls).ToArgs.head? = some flag)
            ∧ ¬ (["up", "-d"] <+: ((newUpCommand filePaths).attachAll calls).ToArgs)
            ∧ ¬ (["down", "--remove-orphans"]
                  <+: ((newDownCommand filePaths).attachAll calls).ToArgs)) := by
  have hlen : (filePairs filePaths ++ calls.flatMap Attachment.pair).length
      = 2 * filePaths.length + 2 * calls.length := by
    rw [List.length_append, filePairs_length]
    congr 1
    induction calls with
    | nil => rfl
    | cons a as ih =>
      rw [List.flatMap_cons, List.length_append, ih]
      cases a <;> simp [Attachment.pair] <;> omega
  refine ⟨attachAll_ToArgs _ _ _, ?_, ?_, ?_, attachAll_ToArgs _ _ _,
    attachAll_ToArgs _ _ _, ?_⟩
  · rw [attachAll_ToArgs]
    exact List.suffix_append _ _
  · rw [attachAll_ToArgs, ← hlen, List.drop_left]
  · rw [attachAll_ToArgs, ← hlen, List.take_left]
  · intro h
    obtain ⟨flag, rest, hmem, heq⟩ := flags_head_mem filePaths calls h
    have hflag : flag ≠ "up" ∧ flag ≠ "down" := by
      simp only [modifierFlags, List.mem_cons, List.mem_singleton, List.not_mem_nil,
        or_false] at hmem
      rcases hmem with h1 | h1 | h1 | h1 <;> subst h1 <;> decide
    refine ⟨⟨flag, hmem, ?_⟩, ?_, ?_⟩
    · rw [attachAll_ToArgs, heq]
      rfl
    · unfold newUpCommand
      rw [attachAll_ToArgs, heq]
      rintro ⟨t, ht⟩
      simp only [List.cons_append, List.cons.injEq] at ht
      exact hflag.1 ht.1.symm
    · unfold newDownCommand
      rw [attachAll_ToArgs, heq]
      rintro ⟨t, ht⟩
      simp only [List.cons_append, List.cons.injEq] at ht
      exact hflag.2 ht.1.symm

/-- C4, at a bring-up of one file with a host and then a project attached. -/
theorem C4_flags_before_base_witness :
    (["docker-compose.yml"] ≠ ([] : List String)
        ∨ [Attachment.host "h", Attachment.projectName "p"] ≠ [])
      ∧ ((newCommand ["up", "-d"] ["docker-compose.yml"]).attachAll
          [Attachment.host "h", Attachment.projectName "p"]).ToArgs
        = ["-f", "docker-compose.yml", "-H", "h", "-p", "p", "up", "-d"]
      ∧ ¬ (["up", "-d"] <+: ((newUpCommand ["docker-compose.yml"]).attachAll
          [Attachment.host "h", Attachment.projectName "p"]).ToArgs) :=
  ⟨Or.inl (by decide),
    (C4_flags_before_base ["up", "-d"] ["docker-compose.yml"]
      [Attachment.host "h", Attachment.projectName "p"]).1.trans (by decide),
    ((C4_flags_before_base ["up", "-d"] ["docker-compose.yml"]
      [Attachment.host "h", Attachment.projectName "p"]).2.2.2.2.2.2
        (Or.inl (by decide))).2.1⟩

/-- C5: for every list of file paths, when project name, host and env-file path
are all the empty string, the argument vector that `Command` passes to the
external binary is the finalized vector of the freshly built invocation, for
any base tokens and so for both operations: the `-f` pairs followed by the
base tokens, token for token. -/
theorem C5_empty_modifiers {ε : Type} (wrapper : ComposeWrapper) (sys : Runtime ε)
    (command filePaths : List String) (workingDir configPath : String) :
    (wrapper.prepare sys (newCommand command filePaths) workingDir "" "" "" configPath).Args
        = (newCommand command filePaths).ToArgs
      ∧ (newCommand command filePaths).ToArgs = filePairs filePaths ++ command
      ∧ (wrapper.prepare sys (newUpCommand filePaths) workingDir "" "" "" configPath).Args
        = filePairs filePaths ++ ["up", "-d"]
      ∧ (wrapper.prepare sys (newDownCommand filePaths) workingDir "" "" "" configPath).Args
        = filePairs filePaths ++ ["down", "--remove-orphans"]
      ∧ (newCommand command filePaths).attachOptions "" "" "" = newCommand command filePaths := by
  have h1 : ∀ base : List String,
      (newCommand base filePaths).ToArgs = filePairs filePaths ++ base := by
    intro base
    rw [composeCommand.ToArgs, newCommand_args]
    rfl
  refine ⟨?_, h1 _, ?_, ?_, rfl⟩
  · rw [prepare_Args]
    rfl
  · rw [prepare_Args, ← h1]
    rfl
  · rw [prepare_Args, ← h1]
    rfl

/-- C6: round trip. For base tokens of length two (as for bring-up and
tear-down), dropping the two trailing base tokens of the argument vector that
`Command` builds from a `newCommand` invocation and reading the rest as
consecutive flag pairs recovers the trimmed file paths in input order (the
values under `-f`) and the project name, env-file path and host (the values
under `-p`, `--env-file`, `-H`, an empty value read back as absent); so two
inputs with the same argument vector have the same trimmed file list and the
same modifier values. -/
theorem C6_round_trip {ε : Type} (wrapper : ComposeWrapper) (sys : Runtime ε)
    (command filePaths : List String)
    (workingDir host projectName envFilePath configPath : String)
    (hlen : command.length = 2) :
    parseArgs (wrapper.prepare sys (newCommand command filePaths) workingDir host
        projectName envFilePath configPath).Args
      = { files := filePaths.map TrimSpace
          projectName := optional projectName
          envFilePath := optional envFilePath
          host := optional host }
    ∧ ∀ (command2 filePaths2 : List String)
        (workingDir2 host2 projectName2 envFilePath2 configPath2 : String),
        command2.length = 2 →
        (wrapper.prepare sys (newCommand command filePaths) workingDir host
            projectName envFilePath configPath).Args
          = (wrapper.prepare sys (newCommand command2 filePaths2) workingDir2 host2
              projectName2 envFilePath2 configPath2).Args →
        filePaths.map TrimSpace = filePaths2.map TrimSpace
          ∧ projectName = projectName2 ∧ envFilePath = envFilePath2 ∧ host = host2 := by
  refine ⟨?_, ?_⟩
  · rw [prepare_Args]
    exact parseArgs_attachOptions _ _ _ _ _ hlen
  · intro command2 filePaths2 workingDir2 host2 projectName2 envFilePath2 configPath2
      hlen2 heq
    rw [prepare_Args, prepare_Args] at heq
    have hparse := congrArg parseArgs heq
    rw [parseArgs_attachOptions _ _ _ _ _ hlen,
      parseArgs_attachOptions _ _ _ _ _ hlen2] at hparse
    simp only [Parsed.mk.injEq] at hparse
    exact ⟨hparse.1, optional_injective _ _ hparse.2.1,
      optional_injective _ _ hparse.2.2.1, optional_injective _ _ hparse.2.2.2⟩

/-- C6, at a bring-up of two files with blanks around them, a project and a
host but no env-file. -/
theorem C6_round_trip_witness :
    (["up", "-d"] : List String).length = 2
      ∧ parseArgs (ComposeWrapper.prepare ⟨""⟩
          ({ programPath := fun _ name => name, Environ := [],
             Output := fun _ => ⟨none, none, ""⟩ } : Runtime Unit)
          (newCommand ["up", "-d"] [" a.yml", "b.yml "]) "" "h" "p" "" "").Args
        = { files := ["a.yml", "b.yml"], projectName := some "p", envFilePath := none,
            host := some "h" } :=
  ⟨rfl,
    (C6_round_trip ⟨""⟩ _ ["up", "-d"] [" a.yml", "b.yml "] "" "h" "p" "" "" rfl).1.trans
      (by decide)⟩

/-- C7 (as stated, refuted): attaching the project name `test1` twice to the
bring-up of one file does not give the invocation, nor the finalized vector,
of attaching it once: the second call appends a second `-p test1`. -/
theorem C7_idempotence_refuted :
    ((newUpCommand ["docker-compose.yml"]).WithProjectName "test1").WithProjectName "test1"
        ≠ (newUpCommand ["docker-compose.yml"]).WithProjectName "test1"
      ∧ (((newUpCommand ["docker-compose.yml"]).WithProjectName "test1").WithProjectName
            "test1").ToArgs
        = ["-f", "docker-compose.yml", "-p", "test1", "-p", "test1", "up", "-d"]
      ∧ ((newUpCommand ["docker-compose.yml"]).WithProjectName "test1").ToArgs
        = ["-f", "docker-compose.yml", "-p", "test1", "up", "-d"] := by
  decide

/-- C7 (amended): the attachment operations append without looking at what is
already there. For every invocation and every value, attaching the same
project name, env-file path or host a second time appends a second copy of
the flag pair after the first: the args of the twice-attached invocation are
those of the once-attached one followed by the pair again, the base tokens are
the same, the finalized vector is two tokens longer, and the two invocations
differ. -/
theorem C7_attach_twice_appends_twice (c : composeCommand) (v : String) :
    (((c.WithProjectName v).WithProjectName v).args
          = (c.WithProjectName v).args ++ ["-p", v]
        ∧ ((c.WithProjectName v).WithProjectName v).command = c.command
        ∧ ((c.WithProjectName v).WithProjectName v).ToArgs
            = c.args ++ ["-p", v, "-p", v] ++ c.command
        ∧ ((c.WithProjectName v).WithProjectName v).ToArgs.length
            = (c.WithProjectName v).ToArgs.length + 2
        ∧ (c.WithProjectName v).WithProjectName v ≠ c.WithProjectName v)
      ∧ (((c.WithEnvFilePath v).WithEnvFilePath v).args
          = (c.WithEnvFilePath v).args ++ ["--env-file", v]
        ∧ ((c.WithEnvFilePath v).WithEnvFilePath v).command = c.command
        ∧ ((c.WithEnvFilePath v).WithEnvFilePath v).ToArgs
            = c.args ++ ["--env-file", v, "--env-file", v] ++ c.command
        ∧ ((c.WithEnvFilePath v).WithEnvFilePath v).ToArgs.length
            = (c.WithEnvFilePath v).ToArgs.length + 2
        ∧ (c.WithEnvFilePath v).WithEnvFilePath v ≠ c.WithEnvFilePath v)
      ∧ (((c.WithHost v).WithHost v).args = (c.WithHost v).args ++ ["-H", v]
        ∧ ((c.WithHost v).WithHost v).command = c.command
        ∧ ((c.WithHost v).WithHost v).ToArgs = c.args ++ ["-H", v, "-H", v] ++ c.command
        ∧ ((c.WithHost v).WithHost v).ToArgs.length = (c.WithHost v).ToArgs.length + 2
        ∧ (c.WithHost v).WithHost v ≠ c.WithHost v) := by
  have hne : ∀ (a b : composeCommand), a.args.length ≠ b.args.length → a ≠ b := by
    intro a b h hab
    exact h (by rw [hab])
  refine ⟨⟨rfl, rfl, ?_, ?_, ?_⟩, ⟨rfl, rfl, ?_, ?_, ?_⟩, ⟨rfl, rfl, ?_, ?_, ?_⟩⟩
  all_goals first
    | (apply hne
       simp [composeCommand.WithProjectName, composeCommand.WithEnvFilePath,
         composeCommand.WithHost])
    | (simp [composeCommand.ToArgs, composeCommand.WithProjectName,
         composeCommand.WithEnvFilePath, composeCommand.WithHost]
       done)
    | (simp [composeCommand.ToArgs, composeCommand.WithProjectName,
         composeCommand.WithEnvFilePath, composeCommand.WithHost]
       omega)

/-- C8: for every list of file paths, working directory, host and project
name, `Down` is `Command` on the tear-down invocation with empty env-file path
and credential-store path: it runs the program on the `-f` pairs, then the
optional project pair, then the optional host pair, then
`down --remove-orphans`, with no env-file pair attached, in the given working
directory and with no explicit environment (no `DOCKER_CONFIG` entry), and
its results are those of that one run. -/
theorem C8_Down {ε : Type} (wrapper : ComposeWrapper) (sys : Runtime ε)
    (filePaths : List String) (projectDir host projectName : String) :
    wrapper.Down sys filePaths projectDir host projectName
        = wrapper.Command sys (newDownCommand filePaths) projectDir host projectName "" ""
      ∧ wrapper.prepare sys (newDownCommand filePaths) projectDir host projectName "" ""
        = { Path := sys.programPath wrapper.binaryPath "docker-compose"
            Args := filePairs filePaths
              ++ (if projectName = "" then [] else ["-p", projectName])
              ++ (if host = "" then [] else ["-H", host])
              ++ ["down", "--remove-orphans"]
            Dir := projectDir
            Env := none }
      ∧ wrapper.Down sys filePaths projectDir host projectName
        = finish (sys.Output
            { Path := sys.programPath wrapper.binaryPath "docker-compose"
              Args := filePairs filePaths
                ++ (if projectName = "" then [] else ["-p", projectName])
                ++ (if host = "" then [] else ["-H", host])
                ++ ["down", "--remove-orphans"]
              Dir := projectDir
              Env := none }) := by
  have hprep : wrapper.prepare sys (newDownCommand filePaths) projectDir host projectName
      "" ""
        = { Path := sys.programPath wrapper.binaryPath "docker-compose"
            Args := filePairs filePaths
              ++ (if projectName = "" then [] else ["-p", projectName])
              ++ (if host = "" then [] else ["-H", host])
              ++ ["down", "--remove-orphans"]
            Dir := projectDir
            Env := none } := by
    have hargs := prepare_Args wrapper sys (newDownCommand filePaths) projectDir host
      projectName "" ""
    rw [attachOptions_ToArgs, newDownCommand, newCommand_args] at hargs
    have hrest : wrapper.prepare sys (newDownCommand filePaths) projectDir host projectName
        "" ""
        = { Path := sys.programPath wrapper.binaryPath "docker-compose"
            Args := (wrapper.prepare sys (newDownCommand filePaths) projectDir host
              projectName "" "").Args
            Dir := projectDir
            Env := none } := rfl
    rw [hrest, newDownCommand, hargs]
    simp [optPair, newCommand]
  refine ⟨rfl, hprep, ?_⟩
  rw [← hprep]
  rfl

/-- C9: `Command` has two outcomes. If the run reports an error, it returns no
output bytes together with the error that wraps the reported one with the
captured standard-error text as message; if the run reports no error, it
returns the captured standard-output bytes and no error. It never returns
both output bytes and an error, and returns an error exactly when the run
reported one. -/
theorem C9_two_outcomes {ε : Type} (wrapper : ComposeWrapper) (sys : Runtime ε)
    (command : composeCommand)
    (workingDir host projectName envFilePath configPath : String) :
    wrapper.Command sys command workingDir host projectName envFilePath configPath
        = (match (sys.Output (wrapper.prepare sys command workingDir host projectName
              envFilePath configPath)).err with
          | some err =>
            (none, some { cause := err,
                          msg := (sys.Output (wrapper.prepare sys command workingDir host
                            projectName envFilePath configPath)).stderr })
          | none =>
            ((sys.Output (wrapper.prepare sys command workingDir host projectName
              envFilePath configPath)).output, none))
      ∧ ((wrapper.Command sys command workingDir host projectName envFilePath
            configPath).1.isSome
          && (wrapper.Command sys command workingDir host projectName envFilePath
            configPath).2.isSome) = false
      ∧ (wrapper.Command sys command workingDir host projectName envFilePath
            configPath).2.isSome
          = (sys.Output (wrapper.prepare sys command workingDir host projectName
              envFilePath configPath)).err.isSome := by
  unfold ComposeWrapper.Command finish
  cases (sys.Output (wrapper.prepare sys command workingDir host projectName
    envFilePath configPath)).err with
  | none => simp
  | some err => simp [Wrap]

/-- C10: for every non-empty credential-store path, the environment that
`Command` sets on the child process is the parent environment, every entry
kept and in order, followed by the one entry `DOCKER_CONFIG=<configPath>`; for
the empty path `Command` sets no environment, so the child inherits that of
the parent. The program, the argument vector and the working directory are
the same for every credential-store path. -/
theorem C10_child_env {ε : Type} (wrapper : ComposeWrapper) (sys : Runtime ε)
    (command : composeCommand)
    (workingDir host projectName envFilePath configPath configPath2 : String) :
    (wrapper.prepare sys command workingDir host projectName envFilePath configPath).Env
        = (if configPath = "" then none
           else some (sys.Environ ++ ["DOCKER_CONFIG=" ++ configPath]))
      ∧ (wrapper.prepare sys command workingDir host projectName envFilePath "").Env = none
      ∧ (wrapper.prepare sys command workingDir host projectName envFilePath configPath).Args
        = (wrapper.prepare sys command workingDir host projectName envFilePath
            configPath2).Args
      ∧ (wrapper.prepare sys command workingDir host projectName envFilePath configPath).Dir
        = workingDir
      ∧ (wrapper.prepare sys command workingDir host projectName envFilePath configPath).Path
        = (wrapper.prepare sys command workingDir host projectName envFilePath
            configPath2).Path := by
  unfold ComposeWrapper.prepare
  by_cases h1 : configPath = "" <;> by_cases h2 : configPath2 = ""
    <;> simp [h1, h2, execCommand]

end Wrapper
